import Mathlib

/-!
Verification development for the Donation Tracker application
(`src/main.cpp`, `donation_tracker.h`).

The persistence layer (class `DonationTracker`) stores donors, donations and
a singleton organization record in SQLite.  We shallowly embed the store as
Lean lists of records and each SQL statement as a function on that state.

Modelling notes, each justified by the source:

* Text is modelled as `List Char`.  SQLite's `LOWER` lowercases ASCII
  `A`-`Z` only, which is exactly `Char.toLower` mapped over the list.
  SQLite's default BINARY collation compares UTF-8 byte strings, which for
  valid UTF-8 coincides with lexicographic comparison of code points, i.e.
  the lexicographic order on `List Char`.
* The search term is lowercased in C++ with `QString::toLower`, a full
  Unicode case mapping; `Char.toLower` coincides with it exactly on ASCII
  characters.  Statements about the `LIKE` search branch therefore carry
  an ASCII-term hypothesis (`isAsciiStr`), inside which the embedding is
  exact — the donor fields themselves may hold arbitrary text, since the
  field side (`LOWER`) is ASCII-only whatever the content, and an
  all-ASCII `LIKE` pattern can only match at UTF-8 character boundaries.
* Donation amounts are `REAL` in the schema, but every amount entering the
  database is a currency value with two decimals (the UI validator
  `QDoubleValidator(0.00, 10000000.00, 2, ...)` enforces this), so amounts
  are modelled exactly as integer cents; `QString::number(x, 'f', 2)`
  on such a value prints the cents with two digits after the point.
* The connection is opened with plain `sqlite3_open` and the program never
  executes `PRAGMA foreign_keys = ON`.  SQLite keeps foreign-key
  enforcement OFF by default, so the `ON DELETE CASCADE` clause declared in
  `createTables` is parsed but never enforced: `DELETE FROM donors` removes
  only donor rows and leaves donations in place.  `deleteDonor` below
  models this actual behaviour.
* `SELECT ... WHERE id=?` on a primary-key column yields at most one row;
  statements that iterate rows are modelled by iterating the backing list.
-/

/-! ### ASCII text utilities -/

/-- All suffixes of a character list, longest first, ending with `[]`. -/
def allSuffixes : List Char → List (List Char)
  | [] => [[]]
  | c :: cs => (c :: cs) :: allSuffixes cs

/-- Does the first list occur as a prefix of the second? -/
def startsList : List Char → List Char → Bool
  | [], _ => true
  | _ :: _, [] => false
  | a :: as, b :: bs => a == b && startsList as bs

/-- Does `t` occur as a contiguous substring of `s`?  (Plain substring
containment, used to state what the spec means by "substring match".) -/
def occursIn (t s : List Char) : Bool :=
  (allSuffixes s).any (fun u => startsList t u)

/-- ASCII lowercasing of a string, character by character.  `Char.toLower`
maps exactly `A`-`Z` to `a`-`z`: this is precisely SQLite's `LOWER`
(applied to the donor fields, faithful for arbitrary field content), and
it agrees with the C++ term-side `QString::toLower` exactly on ASCII
terms — theorems about the search branch are scoped accordingly. -/
def lowerStr (s : List Char) : List Char := s.map Char.toLower

/-- SQL `LIKE` pattern matching: `%` matches any (possibly empty) sequence,
`_` matches exactly one character, anything else matches itself.  The
program pre-lowercases both sides, on which SQLite's ASCII case folding is
the identity, so a case-sensitive matcher is faithful here. -/
def likeMatch : List Char → List Char → Bool
  | [] => fun s => s.isEmpty
  | p :: ps =>
    if p = '%' then fun s => (allSuffixes s).any (fun u => likeMatch ps u)
    else fun s =>
      match s with
      | [] => false
      | c :: cs => (p == '_' || p == c) && likeMatch ps cs

/-! ### Decimal formatting -/

/-- The decimal text of an integer, as `std::to_string` and Qt's `%3` /
`<< year` produce it. -/
def yearChars (year : Int) : List Char := (Int.repr year).data

/-- A nonnegative amount of cents printed as the C++ side prints the
corresponding `double` with `QString::number(x, 'f', 2)`: the whole part in
decimal, a point, then exactly the two cent digits. -/
def formatCentsNat (n : Nat) : List Char :=
  (Nat.repr (n / 100)).data ++ '.' :: [Nat.digitChar (n % 100 / 10), Nat.digitChar (n % 10)]

/-- An amount of cents (possibly negative) printed as
`QString::number(x, 'f', 2)` prints the corresponding `double`. -/
def formatCents (c : Int) : List Char :=
  if c < 0 then '-' :: formatCentsNat (-c).toNat else formatCentsNat c.toNat

/-! ### Data model: the three tables of `createTables` -/

/-- A row of the `donors` table. -/
structure Donor where
  id : Int
  firstName : List Char
  lastName : List Char
  street : List Char
  city : List Char
  state : List Char
  zip : List Char
  country : List Char
  phone : List Char
  email : List Char
deriving DecidableEq

/-- A row of the `donations` table. -/
structure Donation where
  id : Int
  donorId : Int
  amountCents : Int
  date : List Char
  paymentMethod : List Char
deriving DecidableEq

/-- The database state: the `donors` and `donations` tables, and the
singleton `organization` row (`id = 1`), present or not. -/
structure Store where
  donors : List Donor
  donations : List Donation
  organization : Option (List Char × List Char)
deriving DecidableEq

/-- Ascending order of donors by the pair (first name, last name), the
`ORDER BY first_name, last_name` order with SQLite's BINARY collation. -/
def nameLe (x y : Donor) : Prop :=
  toLex (x.firstName, x.lastName) ≤ toLex (y.firstName, y.lastName)

instance : DecidableRel nameLe := fun x y =>
  inferInstanceAs (Decidable (toLex (x.firstName, x.lastName) ≤ toLex (y.firstName, y.lastName)))

instance : IsTotal Donor nameLe := ⟨fun _ _ => le_total _ _⟩

instance : IsTrans Donor nameLe := ⟨fun _ _ _ h h' => le_trans h h'⟩

/-- Descending order of donations by date (`ORDER BY date DESC`). -/
def dateGe (x y : Donation) : Prop := y.date ≤ x.date

instance : DecidableRel dateGe := fun x y =>
  inferInstanceAs (Decidable (y.date ≤ x.date))

namespace DonationTracker

/-- The next `AUTOINCREMENT` id for the `donors` table. -/
def nextDonorId (db : Store) : Int := (db.donors.map (fun d => d.id)).foldl max 0 + 1

/-- The next `AUTOINCREMENT` id for the `donations` table. -/
def nextDonationId (db : Store) : Int := (db.donations.map (fun d => d.id)).foldl max 0 + 1

/-- `INSERT INTO donors ...`: appends a fresh row; reports success. -/
def addDonor (db : Store) (firstName lastName street city state zip country phone email : List Char) :
    Bool × Store :=
  (true, { db with donors := db.donors ++
    [⟨nextDonorId db, firstName, lastName, street, city, state, zip, country, phone, email⟩] })

/-- `UPDATE donors SET ... WHERE id=?`: replaces every field of the rows
whose id matches.  `sqlite3_step` returns `SQLITE_DONE` whether or not any
row matched, so the C++ function returns `true` either way. -/
def updateDonor (db : Store) (id : Int) (firstName lastName street city state zip country phone email : List Char) :
    Bool × Store :=
  (true, { db with donors := db.donors.map (fun d =>
    if d.id = id then ⟨id, firstName, lastName, street, city, state, zip, country, phone, email⟩ else d) })

/-- `DELETE FROM donors WHERE id=?`.  The connection never runs
`PRAGMA foreign_keys = ON`, and SQLite leaves foreign keys OFF by default,
so the declared `ON DELETE CASCADE` does not fire: only donor rows are
removed and donations are left untouched.  As with `updateDonor`, a
zero-row delete still reports success. -/
def deleteDonor (db : Store) (id : Int) : Bool × Store :=
  (true, { db with donors := db.donors.filter (fun d => ¬ d.id = id) })

/-- `INSERT INTO donations (donor_id, amount, date, payment_method)`:
appends the row verbatim.  No check relates `donorId` to the `donors`
table (and with foreign keys off SQLite performs none either). -/
def addDonation (db : Store) (donorId : Int) (amountCents : Int) (date paymentMethod : List Char) :
    Bool × Store :=
  (true, { db with donations := db.donations ++
    [⟨nextDonationId db, donorId, amountCents, date, paymentMethod⟩] })

/-- `SELECT ... FROM donors WHERE id=?`: the donor row, if any. -/
def getDonorDetails (db : Store) (id : Int) : Option Donor :=
  db.donors.find? (fun d => d.id = id)

/-- `SELECT name, address FROM organization WHERE id=1`. -/
def getOrganizationDetails (db : Store) : Option (List Char × List Char) :=
  db.organization

/-- `SELECT id FROM donors ORDER BY id`. -/
def getAllDonorIds (db : Store) : List Int :=
  List.insertionSort (· ≤ ·) (db.donors.map (fun d => d.id))

/-- `SELECT ... FROM donations WHERE donor_id=? ORDER BY date DESC`. -/
def getDonationsForDonor (db : Store) (donorId : Int) : List Donation :=
  List.insertionSort dateGe (db.donations.filter (fun dn => dn.donorId = donorId))

/-- The eight-field `LIKE` disjunction of the search query.  Each field is
lowercased by SQL `LOWER` (ASCII-only, exactly `lowerStr`), the pattern is
`'%' ++ lowercased term ++ '%'` where the C++ lowercases the term with the
Unicode-aware `QString::toLower`; the model's `lowerStr` reproduces that
lowering exactly for ASCII terms, the scope under which the search
theorems are stated.  Note `street` is not among the searched fields. -/
def donorMatchesLike (term : List Char) (d : Donor) : Bool :=
  let pat : List Char := '%' :: (lowerStr term ++ ['%'])
  likeMatch pat (lowerStr d.firstName) || likeMatch pat (lowerStr d.lastName) ||
  likeMatch pat (lowerStr d.email) || likeMatch pat (lowerStr d.phone) ||
  likeMatch pat (lowerStr d.city) || likeMatch pat (lowerStr d.state) ||
  likeMatch pat (lowerStr d.zip) || likeMatch pat (lowerStr d.country)

/-- `searchDonors`: with `includeAll` or an empty term, all donors ordered
by `(first_name, last_name)`; otherwise the rows passing the eight-field
`LIKE` filter, in storage order. -/
def searchDonors (db : Store) (term : List Char) (includeAll : Bool) : List Donor :=
  if includeAll || term.isEmpty then List.insertionSort nameLe db.donors
  else db.donors.filter (donorMatchesLike term)

end DonationTracker

/-- Sum of the amounts (in cents) of a list of donations. -/
def centsSum (l : List Donation) : Int := (l.map (fun dn => dn.amountCents)).sum

/-- The donations the specification's letter-aggregation sentence selects
for one donor: owned by that donor and with the leading four characters of
the stored date equal to the decimal text of the year (pure string-prefix
filter). -/
def matchingDonations (db : Store) (donorId : Int) (year : Int) : List Donation :=
  db.donations.filter (fun dn => dn.donorId = donorId ∧ dn.date.take 4 = yearChars year)

/-- `FROM donors d JOIN donations don ON d.id = don.donor_id`: the joined
rows, donors outermost. -/
def joinOn (db : Store) : List (Donor × Donation) :=
  db.donors.flatMap (fun d =>
    (db.donations.filter (fun dn => dn.donorId = d.id)).map (fun dn => (d, dn)))

/-- `WHERE SUBSTR(don.date, 1, 4) = ?` with the year's decimal text bound:
the joined rows surviving the string-prefix year filter. -/
def yearRows (db : Store) (year : Int) : List (Donor × Donation) :=
  (joinOn db).filter (fun p => p.2.date.take 4 = yearChars year)

/-- `GROUP BY d.id` with `SUM(don.amount)`: one row per donor that has at
least one surviving joined row, carrying the donor and the summed amount.
Groups are enumerated through the donor table, which is faithful because
`id` is the primary key of `donors` (ids are unique). -/
def letterRows (db : Store) (year : Int) : List (Donor × Int) :=
  db.donors.filterMap (fun d =>
    if (yearRows db year).filter (fun p => p.1.id = d.id) = [] then none
    else some (d, centsSum (((yearRows db year).filter (fun p => p.1.id = d.id)).map (fun p => p.2))))

/-- The letter file name: `letters/%1_%2_%3_donation_letter.txt` with the
first name, last name and year substituted.  The donor id is not part of
the name. -/
def fileName (firstName lastName : List Char) (year : Int) : List Char :=
  "letters/".data ++ firstName ++ "_".data ++ lastName ++ "_".data ++ yearChars year ++
    "_donation_letter.txt".data

/-- The text written for one donor's letter, exactly the `QTextStream`
output sequence of `generateDonationLetters`; `today` stands for
`QDate::currentDate().toString("MMMM d, yyyy")`. -/
def letterContent (orgN orgA today : List Char) (d : Donor) (year : Int) (total : Int) : List Char :=
  orgN ++ "\n".data ++ orgA ++ "\n\n".data ++ today ++ "\n\n".data ++
  d.firstName ++ " ".data ++ d.lastName ++ "\n".data ++
  d.street ++ "\n".data ++
  d.city ++ ", ".data ++ d.state ++ " ".data ++ d.zip ++ "\n".data ++
  d.country ++ "\n\n".data ++
  "Dear ".data ++ d.firstName ++ ",\n\n".data ++
  "Thank you for your generous total donation of $".data ++ formatCents total ++
  " to ".data ++ orgN ++ " in ".data ++ yearChars year ++ ".\n".data ++
  "Your support makes a significant difference to our mission.\n\n".data ++
  "Sincerely,\n".data ++ orgN ++ "\n".data

/-- Organization name used on letters: the singleton row's name, or the
empty string when the row is absent (the C++ `std::string`s stay empty when
`getOrganizationDetails` returns false). -/
def orgNameOf (db : Store) : List Char := ((DonationTracker.getOrganizationDetails db).getD ([], [])).1

/-- Organization address used on letters (empty when the row is absent). -/
def orgAddressOf (db : Store) : List Char := ((DonationTracker.getOrganizationDetails db).getD ([], [])).2

/-- The sequence of file writes a letter-generation run performs: one
`(file name, content)` pair per grouped row, in row order. -/
def letterWrites (today : List Char) (db : Store) (year : Int) : List (List Char × List Char) :=
  (letterRows db year).map (fun r =>
    (fileName r.1.firstName r.1.lastName year,
     letterContent (orgNameOf db) (orgAddressOf db) today r.1 year r.2))

/-- `DonationTracker::generateDonationLetters`: iterates over all grouped
rows; a row whose file can be opened (`writeOk` on its name) is written, a
row whose file cannot be opened only clears the success flag — the loop
always continues.  Returns the writes performed and the final success
flag. -/
def generateDonationLetters (writeOk : List Char → Bool) (today : List Char) (db : Store) (year : Int) :
    List (List Char × List Char) × Bool :=
  (letterWrites today db year).foldl
    (fun acc w => if writeOk w.1 then (acc.1 ++ [w], acc.2) else (acc.1, false))
    ([], true)

/-! ### The file system receiving the letters -/

/-- Writing one file: replaces the existing entry with that name, or
appends a new entry. -/
def setFile : List (List Char × List Char) → List Char → List Char → List (List Char × List Char)
  | [], n, c => [(n, c)]
  | e :: fs, n, c => if e.1 = n then (n, c) :: fs else e :: setFile fs n c

/-- Performing a sequence of writes on an initially empty directory. -/
def runWrites (ws : List (List Char × List Char)) : List (List Char × List Char) :=
  ws.foldl (fun fs w => setFile fs w.1 w.2) []

/-- The content a directory holds under a name, if any. -/
def lookupFile (fs : List (List Char × List Char)) (n : List Char) : Option (List Char) :=
  (fs.find? (fun e => e.1 = n)).map (fun e => e.2)

/-- The last write in a sequence that targets the given name, if any. -/
def lastWrite (n : List Char) (ws : List (List Char × List Char)) : Option (List Char × List Char) :=
  ws.reverse.find? (fun w => w.1 = n)

/-! ### The navigation cursor (`MainWindow` donor navigation state) -/

/-- The `MainWindow` navigation state: the `donorIds` vector, the `int`
index `currentDonorIndex` and the `int` id `currentDonorId` (`-1` meaning
"none"). -/
structure Cursor where
  donorIds : List Int
  currentDonorIndex : Int
  currentDonorId : Int
deriving DecidableEq

/-- `std::find` then `std::distance`: the index of the first occurrence of
`x`, or `-1` when absent. -/
def findIndex (x : Int) : List Int → Int
  | [] => -1
  | y :: ys =>
    if y = x then 0
    else if findIndex x ys = -1 then -1 else findIndex x ys + 1

/-- A C++ `int` value read as `size_t` (64-bit unsigned wrap-around), as in
`static_cast<size_t>(currentDonorIndex)` and in `donorIds.size() - 1`. -/
def usize (i : Int) : Int := i % (2 ^ 64 : Int)

/-- `donorIds[i]`: the vector access of the navigation slots.  Access is
only ever performed in bounds along reachable paths; out of bounds it is
undefined behaviour in C++ and modelled by an arbitrary fixed value. -/
def idAt (l : List Int) (i : Int) : Int := l.getD i.toNat 0

namespace MainWindow

/-- `MainWindow::populateDonorIds`: reloads the ascending id sequence; when
a donor is current (`currentDonorId != -1`), re-derives the index by
locating that id, `-1` when it is gone.  (`updateNavigationButtonStates`
only touches widgets.) -/
def populateDonorIds (db : Store) (c : Cursor) : Cursor :=
  let ids := DonationTracker.getAllDonorIds db
  if c.currentDonorId = -1 then { c with donorIds := ids }
  else { c with donorIds := ids, currentDonorIndex := findIndex c.currentDonorId ids }

/-- `MainWindow::loadDonor`: with a real id, fetches the donor and makes it
current, or clears the current id if the row is missing; with `-1` clears
the current id.  The id sequence and index are untouched; widget updates
are dropped. -/
def loadDonor (db : Store) (c : Cursor) (id : Int) : Cursor :=
  if id = -1 then { c with currentDonorId := -1 }
  else
    match DonationTracker.getDonorDetails db id with
    | some _ => { c with currentDonorId := id }
    | none => { c with currentDonorId := -1 }

/-- `MainWindow::loadPreviousDonor`: `if (currentDonorIndex > 0)` (a signed
`int` comparison), decrement the index and load the donor at it. -/
def loadPreviousDonor (db : Store) (c : Cursor) : Cursor :=
  if c.currentDonorIndex > 0 then
    let c1 : Cursor := { c with currentDonorIndex := c.currentDonorIndex - 1 }
    loadDonor db c1 (idAt c1.donorIds c1.currentDonorIndex)
  else c

/-- `MainWindow::loadNextDonor`:
`if (static_cast<size_t>(currentDonorIndex) < donorIds.size() - 1)` — both
sides are `size_t`, so a negative index wraps to a huge value and, when the
vector is empty, `size() - 1` wraps to `2^64 - 1`. -/
def loadNextDonor (db : Store) (c : Cursor) : Cursor :=
  if usize c.currentDonorIndex < usize ((c.donorIds.length : Int) - 1) then
    let c1 : Cursor := { c with currentDonorIndex := c.currentDonorIndex + 1 }
    loadDonor db c1 (idAt c1.donorIds c1.currentDonorIndex)
  else c

end MainWindow

/-! ### The matcher in the specification's words, and fixtures -/

/-- The search predicate as the specification words it: the lower-cased
term is a substring of at least one of the eight fields (first name, last
name, email, phone, city, state, zip, country), each compared
lower-cased. -/
def specMatches (term : List Char) (d : Donor) : Bool :=
  let t := lowerStr term
  occursIn t (lowerStr d.firstName) || occursIn t (lowerStr d.lastName) ||
  occursIn t (lowerStr d.email) || occursIn t (lowerStr d.phone) ||
  occursIn t (lowerStr d.city) || occursIn t (lowerStr d.state) ||
  occursIn t (lowerStr d.zip) || occursIn t (lowerStr d.country)

/-- A term free of the `LIKE` metacharacters. -/
def noWild (term : List Char) : Prop := '%' ∉ term ∧ '_' ∉ term

instance (term : List Char) : Decidable (noWild term) :=
  inferInstanceAs (Decidable (_ ∧ _))

/-- A string of ASCII characters only: the range on which the C++ term
lowering `QString::toLower` (a full Unicode case mapping) coincides with
`Char.toLower`, so that the embedded search matches the program
exactly. -/
def isAsciiStr (s : List Char) : Prop := ∀ c ∈ s, c.toNat < 128

instance (s : List Char) : Decidable (isAsciiStr s) :=
  inferInstanceAs (Decidable (∀ c ∈ s, c.toNat < 128))

/-- A donor row with given id and name and fixed other fields. -/
def mkDonor (id : Int) (firstName lastName : List Char) : Donor :=
  ⟨id, firstName, lastName, "22 B St".data, "Salem".data, "OR".data, "97301".data,
   "USA".data, "555-0100".data, "ann@example.org".data⟩

/-- The empty database. -/
def emptyStore : Store := ⟨[], [], none⟩

/-- One donor owning one donation (used on concrete evaluations). -/
def store1 : Store :=
  { donors := [mkDonor 1 "ann".data "lee".data]
    donations := [⟨1, 1, 1000, "2024-05-01".data, "cash".data⟩]
    organization := none }

/-- Donors stored out of name and id order (used on concrete evaluations). -/
def dbNav : Store :=
  { donors := [mkDonor 2 "zoe".data "li".data, mkDonor 1 "ann".data "wu".data]
    donations := []
    organization := none }

/-- A donor whose city is Springfield (the spec's own search example). -/
def dbSpring : Store :=
  { donors := [{ mkDonor 1 "ann".data "lee".data with city := "Springfield".data }]
    donations := []
    organization := none }

/-- Two distinct donors sharing first and last name, each with one
donation dated in 2024. -/
def db10 : Store :=
  { donors := [mkDonor 1 "bob".data "smith".data, mkDonor 2 "bob".data "smith".data]
    donations := [⟨1, 1, 1000, "2024-01-01".data, "cash".data⟩,
                  ⟨2, 2, 2500, "2024-02-02".data, "check".data⟩]
    organization := some ("Helping Hands".data, "1 Main St, Salem, OR 97301, USA".data) }

/-- A navigation state whose current donor vanished: the refresh logic set
the index to `-1` while two donors remain. -/
def cursorNone : Cursor := ⟨[1, 2], -1, -1⟩

/-- A navigation state positioned at index 0 of two donors. -/
def cursorAtFirst : Cursor := ⟨[1, 2], 0, 1⟩

/-- A navigation state whose remembered donor id is 2. -/
def cursorAtTwo : Cursor := ⟨[1, 2], 1, 2⟩


/-! ### Helper lemmas -/

/-- `loadDonor` never touches the id sequence or the index. -/
theorem loadDonor_preserves (db : Store) (c : Cursor) (id : Int) :
    (MainWindow.loadDonor db c id).donorIds = c.donorIds
    ∧ (MainWindow.loadDonor db c id).currentDonorIndex = c.currentDonorIndex := by
  unfold MainWindow.loadDonor
  split
  · exact ⟨rfl, rfl⟩
  · split <;> exact ⟨rfl, rfl⟩

/-- The letter-generation fold appends exactly the writable rows and keeps
the success flag exactly when no row failed. -/
theorem lettersFold_spec (writeOk : List Char → Bool) (ws : List (List Char × List Char)) :
    ∀ acc : List (List Char × List Char) × Bool,
      (ws.foldl (fun acc w => if writeOk w.1 then (acc.1 ++ [w], acc.2) else (acc.1, false)) acc).1
        = acc.1 ++ ws.filter (fun w => writeOk w.1)
      ∧ ((ws.foldl (fun acc w => if writeOk w.1 then (acc.1 ++ [w], acc.2) else (acc.1, false)) acc).2 = true
          ↔ (acc.2 = true ∧ ∀ w ∈ ws, writeOk w.1 = true)) := by
  induction ws with
  | nil => intro acc; simp
  | cons w ws ih =>
    intro acc
    by_cases hw : writeOk w.1 = true
    · have h := ih (acc.1 ++ [w], acc.2)
      constructor
      · simpa [hw, List.append_assoc] using h.1
      · simp only [List.foldl_cons, hw, if_pos]
        rw [h.2]
        simp [hw]
    · have hw' : writeOk w.1 = false := by simpa using hw
      have h := ih (acc.1, false)
      constructor
      · simpa [hw'] using h.1
      · simp only [List.foldl_cons, hw', Bool.false_eq_true, if_false]
        rw [h.2]
        simp [hw']

/-! ### C1 -/

/-- C1: the claim fails on the code.  At a store holding donor 1 with one
donation, `deleteDonor 1` reports success and removes the donor row, yet
`getDonationsForDonor 1` still returns the donation, and the remaining
donation references no existing donor (an orphan).  The connection never
enables `PRAGMA foreign_keys`, which SQLite keeps off by default, so the
declared `ON DELETE CASCADE` never fires — contradicting the cascade the
code's own comments and success message promise. -/
theorem deleteDonor_cascade_code_bug :
    (DonationTracker.deleteDonor store1 1).1 = true
    ∧ DonationTracker.getDonorDetails (DonationTracker.deleteDonor store1 1).2 1 = none
    ∧ DonationTracker.getDonationsForDonor (DonationTracker.deleteDonor store1 1).2 1
        = [⟨1, 1, 1000, "2024-05-01".data, "cash".data⟩]
    ∧ ∃ dn ∈ (DonationTracker.deleteDonor store1 1).2.donations,
        ∀ d ∈ (DonationTracker.deleteDonor store1 1).2.donors, d.id ≠ dn.donorId := by
  refine ⟨rfl, rfl, rfl, ⟨1, 1, 1000, "2024-05-01".data, "cash".data⟩, by decide, ?_⟩
  intro d hd
  simp [DonationTracker.deleteDonor, store1, mkDonor] at hd

/-! ### C2 -/

/-- C2: counterexample.  Id 5 identifies no donor in the empty store, yet
`updateDonor` and `deleteDonor` both report success (a zero-row `UPDATE` or
`DELETE` still steps to `SQLITE_DONE`), refuting "fails with NotFound" and
"success is returned only when the identifier exists". -/
theorem updateDeleteDonor_notFound_counterexample :
    (DonationTracker.updateDonor emptyStore 5 "a".data "b".data "c".data "d".data "e".data
        "f".data "g".data "h".data "i".data).1 = true
    ∧ (DonationTracker.deleteDonor emptyStore 5).1 = true
    ∧ DonationTracker.getDonorDetails emptyStore 5 = none := by
  exact ⟨rfl, rfl, rfl⟩

/-- C2 (amended): `updateDonor` and `deleteDonor` report success whether or
not the identifier exists — no NotFound detection is performed — and when
the identifier resolves to no donor they perform no mutation. -/
theorem updateDeleteDonor_success_regardless (db : Store) (id : Int)
    (firstName lastName street city state zip country phone email : List Char)
    (h : ∀ d ∈ db.donors, d.id ≠ id) :
    (DonationTracker.updateDonor db id firstName lastName street city state zip country phone email).1 = true
    ∧ (DonationTracker.deleteDonor db id).1 = true
    ∧ (DonationTracker.updateDonor db id firstName lastName street city state zip country phone email).2 = db
    ∧ (DonationTracker.deleteDonor db id).2 = db := by
  refine ⟨rfl, rfl, ?_, ?_⟩
  · have hmap : db.donors.map (fun d =>
        if d.id = id then
          (⟨id, firstName, lastName, street, city, state, zip, country, phone, email⟩ : Donor)
        else d) = db.donors := by
      rw [List.map_congr_left (fun d hd => if_neg (h d hd))]
      simp
    simp [DonationTracker.updateDonor, hmap]
  · have hfil : db.donors.filter (fun d => !decide (d.id = id)) = db.donors := by
      rw [List.filter_eq_self]
      intro d hd
      simpa using h d hd
    simp [DonationTracker.deleteDonor, hfil]

/-- Witness for the amended C2 theorem at the empty store and id 5. -/
theorem updateDeleteDonor_success_regardless_witness :
    (DonationTracker.updateDonor emptyStore 5 "a".data "b".data "c".data "d".data "e".data
        "f".data "g".data "h".data "i".data).2 = emptyStore
    ∧ (DonationTracker.deleteDonor emptyStore 5).2 = emptyStore := by
  have h := updateDeleteDonor_success_regardless emptyStore 5 "a".data "b".data "c".data
    "d".data "e".data "f".data "g".data "h".data "i".data (by decide)
  exact ⟨h.2.2.1, h.2.2.2⟩

/-! ### C9 -/

/-- C9: `addDonation` validates nothing about `donorId`: even when no donor
with that id exists, the successful write inserts the donation with donor
id, amount and date stored verbatim, and the donor table is untouched. -/
theorem addDonation_no_donor_validation (db : Store) (donorId amountCents : Int)
    (date paymentMethod : List Char)
    (_h : ∀ d ∈ db.donors, d.id ≠ donorId) :
    (DonationTracker.addDonation db donorId amountCents date paymentMethod).1 = true
    ∧ (DonationTracker.addDonation db donorId amountCents date paymentMethod).2.donations
        = db.donations ++ [⟨DonationTracker.nextDonationId db, donorId, amountCents, date, paymentMethod⟩]
    ∧ (DonationTracker.addDonation db donorId amountCents date paymentMethod).2.donors = db.donors :=
  ⟨rfl, rfl, rfl⟩

/-- Witness for C9: inserting a donation for the nonexistent donor 7 into
the empty store succeeds and stores the row verbatim. -/
theorem addDonation_no_donor_validation_witness :
    (DonationTracker.addDonation emptyStore 7 1234 "2024-01-02".data "check".data).2.donations
      = [⟨1, 7, 1234, "2024-01-02".data, "check".data⟩] := by
  have h := addDonation_no_donor_validation emptyStore 7 1234 "2024-01-02".data "check".data
    (by decide)
  simpa using h.2.1

/-! ### C6 -/

/-- C6: counterexample.  In the reachable state where the current donor
vanished (index `-1`) while two donors remain, the index is strictly below
length − 1, so the claim requires `next()` to advance to index 0; the code
leaves the state unchanged, because `static_cast<size_t>(-1)` wraps to
`2^64 − 1` in the guard of `loadNextDonor`. -/
theorem loadNextDonor_negative_index_counterexample :
    cursorNone.currentDonorIndex < (cursorNone.donorIds.length : Int) - 1
    ∧ MainWindow.loadNextDonor emptyStore cursorNone = cursorNone := by
  constructor
  · decide
  · unfold MainWindow.loadNextDonor
    rw [if_neg (by decide)]

/-- C6 (amended): `previous()` is a no-op unless the index is strictly
positive, in which case the index drops by exactly 1; `next()` is a no-op
unless the index is nonnegative and strictly below length − 1 — in
particular at the "none" index `-1` the unsigned comparison wraps and
`next()` does nothing — and otherwise the index grows by exactly 1.  The
id sequence is never modified.  Stated for indices in the range the
navigation logic maintains and vectors of machine-representable length. -/
theorem navigation_step_amended (db : Store) (c : Cursor)
    (h1 : -1 ≤ c.currentDonorIndex)
    (h2 : c.currentDonorIndex ≤ (c.donorIds.length : Int) - 1)
    (h3 : (c.donorIds.length : Int) < 2 ^ 64) :
    (c.currentDonorIndex ≤ 0 → MainWindow.loadPreviousDonor db c = c)
    ∧ (0 < c.currentDonorIndex →
        (MainWindow.loadPreviousDonor db c).currentDonorIndex = c.currentDonorIndex - 1
        ∧ (MainWindow.loadPreviousDonor db c).donorIds = c.donorIds)
    ∧ (¬ (0 ≤ c.currentDonorIndex ∧ c.currentDonorIndex < (c.donorIds.length : Int) - 1) →
        MainWindow.loadNextDonor db c = c)
    ∧ ((0 ≤ c.currentDonorIndex ∧ c.currentDonorIndex < (c.donorIds.length : Int) - 1) →
        (MainWindow.loadNextDonor db c).currentDonorIndex = c.currentDonorIndex + 1
        ∧ (MainWindow.loadNextDonor db c).donorIds = c.donorIds) := by
  have hL : (0 : Int) ≤ (c.donorIds.length : Int) := Int.natCast_nonneg _
  have hguard : usize c.currentDonorIndex < usize ((c.donorIds.length : Int) - 1)
      ↔ (0 ≤ c.currentDonorIndex ∧ c.currentDonorIndex < (c.donorIds.length : Int) - 1) := by
    unfold usize
    omega
  refine ⟨?_, ?_, ?_, ?_⟩
  · intro hle
    unfold MainWindow.loadPreviousDonor
    rw [if_neg (by omega)]
  · intro hpos
    unfold MainWindow.loadPreviousDonor
    rw [if_pos hpos]
    exact ⟨(loadDonor_preserves db _ _).2, (loadDonor_preserves db _ _).1⟩
  · intro hno
    unfold MainWindow.loadNextDonor
    rw [if_neg (fun hc => hno (hguard.mp hc))]
  · intro hyes
    unfold MainWindow.loadNextDonor
    rw [if_pos (hguard.mpr hyes)]
    exact ⟨(loadDonor_preserves db _ _).2, (loadDonor_preserves db _ _).1⟩

/-- Witness for the amended C6 theorem: at index 0 of two donors, `next()`
advances to index 1 and keeps the id sequence. -/
theorem navigation_step_amended_witness :
    (MainWindow.loadNextDonor emptyStore cursorAtFirst).currentDonorIndex = 1
    ∧ (MainWindow.loadNextDonor emptyStore cursorAtFirst).donorIds = [1, 2] := by
  have h := navigation_step_amended emptyStore cursorAtFirst (by decide) (by decide) (by decide)
  have h4 := h.2.2.2 (by decide)
  exact ⟨h4.1, h4.2⟩

/-! ### C7 -/

/-- C7: a letter-generation run writes exactly the qualifying rows whose
files are writable — a failing row never stops the loop, so every later
writable row is still produced — and the run reports success exactly when
every qualifying row's file was writable. -/
theorem generateDonationLetters_partial_failure (writeOk : List Char → Bool)
    (today : List Char) (db : Store) (year : Int) :
    (generateDonationLetters writeOk today db year).1
      = (letterWrites today db year).filter (fun w => writeOk w.1)
    ∧ ((generateDonationLetters writeOk today db year).2 = true
        ↔ ∀ w ∈ letterWrites today db year, writeOk w.1 = true) := by
  have h := lettersFold_spec writeOk (letterWrites today db year) ([], true)
  unfold generateDonationLetters
  constructor
  · simpa using h.1
  · rw [h.2]
    simp

/-! ### C8 -/

/-- C8: whenever `includeAll` is true or the term is empty, `searchDonors`
returns exactly the stored donors (as a permutation) ordered ascending by
the pair (first name, last name). -/
theorem searchDonors_includeAll_sorted (db : Store) (term : List Char) (includeAll : Bool)
    (h : includeAll = true ∨ term = []) :
    List.Perm (DonationTracker.searchDonors db term includeAll) db.donors
    ∧ List.Sorted nameLe (DonationTracker.searchDonors db term includeAll) := by
  have hcond : (includeAll || term.isEmpty) = true := by
    rcases h with h | h <;> simp [h]
  unfold DonationTracker.searchDonors
  rw [if_pos hcond]
  exact ⟨List.perm_insertionSort nameLe db.donors, List.sorted_insertionSort nameLe db.donors⟩

/-- Witness for C8 at a store holding two donors in reverse name order. -/
theorem searchDonors_includeAll_sorted_witness :
    List.Perm (DonationTracker.searchDonors dbNav [] true) dbNav.donors
    ∧ List.Sorted nameLe (DonationTracker.searchDonors dbNav [] true) :=
  searchDonors_includeAll_sorted dbNav [] true (Or.inl rfl)

/-! ### C5 -/

/-- Unfolding equation of `findIndex` on a nonempty list. -/
theorem findIndex_cons (x y : Int) (ys : List Int) :
    findIndex x (y :: ys)
      = if y = x then 0 else if findIndex x ys = -1 then -1 else findIndex x ys + 1 := rfl

/-- `findIndex` returns `-1` exactly on absent values. -/
theorem findIndex_of_not_mem (x : Int) (l : List Int) (h : x ∉ l) : findIndex x l = -1 := by
  induction l with
  | nil => rfl
  | cons y ys ih =>
    have hxy : ¬ y = x := fun he => h (he ▸ List.mem_cons_self y ys)
    have hys : findIndex x ys = -1 := ih (fun hm => h (List.mem_cons_of_mem y hm))
    rw [findIndex_cons, if_neg hxy, if_pos hys]

/-- On a present value, `findIndex` returns a nonnegative index pointing at
that value. -/
theorem findIndex_mem (x : Int) (l : List Int) (h : x ∈ l) :
    0 ≤ findIndex x l ∧ l[(findIndex x l).toNat]? = some x := by
  induction l with
  | nil => cases h
  | cons y ys ih =>
    by_cases hxy : y = x
    · constructor
      · rw [findIndex_cons, if_pos hxy]
      · rw [findIndex_cons, if_pos hxy]
        simpa using hxy
    · have hmem : x ∈ ys := by
        rcases List.mem_cons.mp h with he | hm
        · exact absurd he.symm hxy
        · exact hm
      obtain ⟨hge, hget⟩ := ih hmem
      have hne : ¬ findIndex x ys = -1 := by omega
      have hidx : findIndex x (y :: ys) = findIndex x ys + 1 := by
        rw [findIndex_cons, if_neg hxy, if_neg hne]
      have htn : (findIndex x ys + 1).toNat = (findIndex x ys).toNat + 1 := by omega
      rw [hidx]
      constructor
      · omega
      · rw [htn]
        simpa using hget

/-- C5: after a refresh (`populateDonorIds`) from any store reached by any
sequence of donor mutations, with a donor previously positioned, the
cursor's sequence is the store's donor ids in ascending order, and the
index is re-derived by locating the remembered id — pointing at it when it
still exists, `-1` ("none") when it vanished. -/
theorem populateDonorIds_refresh (db : Store) (c : Cursor)
    (h : c.currentDonorId ≠ -1) :
    List.Sorted (· ≤ ·) (MainWindow.populateDonorIds db c).donorIds
    ∧ List.Perm (MainWindow.populateDonorIds db c).donorIds (db.donors.map (fun d => d.id))
    ∧ (MainWindow.populateDonorIds db c).currentDonorId = c.currentDonorId
    ∧ (c.currentDonorId ∈ (MainWindow.populateDonorIds db c).donorIds →
        0 ≤ (MainWindow.populateDonorIds db c).currentDonorIndex
        ∧ (MainWindow.populateDonorIds db c).donorIds[((MainWindow.populateDonorIds db c).currentDonorIndex).toNat]?
            = some c.currentDonorId)
    ∧ (c.currentDonorId ∉ (MainWindow.populateDonorIds db c).donorIds →
        (MainWindow.populateDonorIds db c).currentDonorIndex = -1) := by
  unfold MainWindow.populateDonorIds
  rw [if_neg h]
  refine ⟨List.sorted_insertionSort _ _, List.perm_insertionSort _ _, rfl, ?_, ?_⟩
  · intro hm
    exact findIndex_mem _ _ hm
  · intro hm
    exact findIndex_of_not_mem _ _ hm

/-- Witness for C5: refreshing over a store whose donors are listed out of
order, with donor 2 current, sorts the ids and re-locates donor 2. -/
theorem populateDonorIds_refresh_witness :
    0 ≤ (MainWindow.populateDonorIds dbNav cursorAtTwo).currentDonorIndex
    ∧ (MainWindow.populateDonorIds dbNav cursorAtTwo).donorIds[((MainWindow.populateDonorIds dbNav cursorAtTwo).currentDonorIndex).toNat]?
        = some 2 := by
  have h := populateDonorIds_refresh dbNav cursorAtTwo (by decide)
  have hm : cursorAtTwo.currentDonorId ∈ (MainWindow.populateDonorIds dbNav cursorAtTwo).donorIds := by
    decide
  exact h.2.2.2.1 hm

/-! ### C4 -/

/-- A bare `%` pattern matches every string. -/
theorem likeMatch_percent_nil (s : List Char) : likeMatch ['%'] s = true := by
  induction s with
  | nil => rfl
  | cons c cs ih =>
    show (allSuffixes (c :: cs)).any (fun u => likeMatch [] u) = true
    have ih2 : (allSuffixes cs).any (fun u => likeMatch [] u) = true := ih
    simp only [allSuffixes, List.any_cons, ih2, Bool.or_true]

/-- Unfolding a `%`-headed pattern: some suffix matches the rest. -/
theorem likeMatch_cons_percent (ps s : List Char) :
    likeMatch ('%' :: ps) s = (allSuffixes s).any (fun u => likeMatch ps u) := rfl

/-- A pattern headed by an ordinary character rejects the empty string. -/
theorem likeMatch_lit_nil (p : Char) (ps : List Char) (hp : ¬ p = '%') :
    likeMatch (p :: ps) [] = false := by
  simp only [likeMatch, if_neg hp]

/-- Unfolding a pattern headed by an ordinary character on a nonempty
string. -/
theorem likeMatch_lit_cons (p : Char) (ps : List Char) (hp : ¬ p = '%') (c : Char) (cs : List Char) :
    likeMatch (p :: ps) (c :: cs) = ((p == '_' || p == c) && likeMatch ps cs) := by
  simp only [likeMatch, if_neg hp]

/-- A metacharacter-free pattern followed by `%` matches exactly the
strings it prefixes. -/
theorem likeMatch_lit (t : List Char) (hp : '%' ∉ t) (hu : '_' ∉ t) :
    ∀ s, likeMatch (t ++ ['%']) s = startsList t s := by
  induction t with
  | nil =>
    intro s
    rw [List.nil_append, likeMatch_percent_nil]
    rfl
  | cons a as ih =>
    intro s
    have ha : ¬ a = '%' := fun he => hp (he ▸ List.mem_cons_self a as)
    have ha2 : (a == '_') = false := by
      have : ¬ a = '_' := fun he => hu (he ▸ List.mem_cons_self a as)
      simpa using this
    have hpas : '%' ∉ as := fun hm => hp (List.mem_cons_of_mem a hm)
    have huas : '_' ∉ as := fun hm => hu (List.mem_cons_of_mem a hm)
    cases s with
    | nil =>
      rw [List.cons_append, likeMatch_lit_nil a (as ++ ['%']) ha]
      rfl
    | cons c cs =>
      rw [List.cons_append, likeMatch_lit_cons a (as ++ ['%']) ha c cs,
        ih hpas huas cs, ha2, Bool.false_or]
      rfl

/-- On a metacharacter-free term `t`, the program's pattern
`'%' ++ t ++ '%'` is exactly substring containment. -/
theorem likeMatch_sub (t : List Char) (hp : '%' ∉ t) (hu : '_' ∉ t) (s : List Char) :
    likeMatch ('%' :: (t ++ ['%'])) s = occursIn t s := by
  rw [likeMatch_cons_percent]
  unfold occursIn
  have h := likeMatch_lit t hp hu
  simp only [h]

/-- `Char.toLower` can only produce a character outside `a`-`z` from that
character itself. -/
theorem toLower_eq_iff (c w : Char)
    (hw : w.toNat < 65 ∨ (90 < w.toNat ∧ w.toNat < 97) ∨ 122 < w.toNat) :
    Char.toLower c = w ↔ c = w := by
  have hdef : Char.toLower c
      = if 65 ≤ c.toNat ∧ c.toNat ≤ 90 then Char.ofNat (c.toNat + 32) else c := rfl
  by_cases hc : 65 ≤ c.toNat ∧ c.toNat ≤ 90
  · have hv : (c.toNat + 32).isValidChar := Or.inl (by omega)
    have htn : (Char.ofNat (c.toNat + 32)).toNat = c.toNat + 32 := by
      rw [Char.ofNat, dif_pos hv]
      rfl
    rw [hdef, if_pos hc]
    constructor
    · intro he
      have := congrArg Char.toNat he
      rw [htn] at this
      omega
    · intro he
      subst he
      omega
  · rw [hdef, if_neg hc]

/-- Lowercasing neither creates nor removes `%` characters. -/
theorem percent_mem_lowerStr (term : List Char) : '%' ∈ lowerStr term ↔ '%' ∈ term := by
  unfold lowerStr
  rw [List.mem_map]
  constructor
  · rintro ⟨c, hc, he⟩
    have hb : Char.toNat '%' < 65 ∨ (90 < Char.toNat '%' ∧ Char.toNat '%' < 97) ∨ 122 < Char.toNat '%' := by
      decide
    have := (toLower_eq_iff c '%' hb).mp he
    exact this ▸ hc
  · intro h
    exact ⟨'%', h, by decide⟩

/-- Lowercasing neither creates nor removes `_` characters. -/
theorem underscore_mem_lowerStr (term : List Char) : '_' ∈ lowerStr term ↔ '_' ∈ term := by
  unfold lowerStr
  rw [List.mem_map]
  constructor
  · rintro ⟨c, hc, he⟩
    have hb : Char.toNat '_' < 65 ∨ (90 < Char.toNat '_' ∧ Char.toNat '_' < 97) ∨ 122 < Char.toNat '_' := by
      decide
    have := (toLower_eq_iff c '_' hb).mp he
    exact this ▸ hc
  · intro h
    exact ⟨'_', h, by decide⟩

/-- On a metacharacter-free term the eight-field `LIKE` disjunction is the
specification's eight-field substring disjunction. -/
theorem donorMatchesLike_eq_spec (term : List Char) (h : noWild term) (d : Donor) :
    DonationTracker.donorMatchesLike term d = specMatches term d := by
  have hp : '%' ∉ lowerStr term := fun hm => h.1 ((percent_mem_lowerStr term).mp hm)
  have hu : '_' ∉ lowerStr term := fun hm => h.2 ((underscore_mem_lowerStr term).mp hm)
  unfold DonationTracker.donorMatchesLike specMatches
  simp only [likeMatch_sub (lowerStr term) hp hu]

/-- C4: counterexample.  The term `"_"` is a nonempty search term, and the
stored donor has no `_` in any field, so under the claim the result should
be empty; but `_` is an SQL `LIKE` wildcard matching any single character,
so the code returns the donor. -/
theorem searchDonors_wildcard_counterexample :
    DonationTracker.searchDonors store1 ['_'] false = [mkDonor 1 "ann".data "lee".data]
    ∧ specMatches ['_'] (mkDonor 1 "ann".data "lee".data) = false := by
  constructor
  · decide
  · decide

/-- C4 (amended): for every nonempty ASCII search term free of the `LIKE`
metacharacters `%` and `_`, `searchDonors` returns exactly the donors with
the lower-cased term a substring of one of the eight searched fields
(whatever text the fields hold), and the match is case-insensitive: any
ASCII term with the same lowercasing — in particular any ASCII case
variant of the term — yields the same result.  ASCII terms are exactly
the range on which the C++ term lowering `QString::toLower` agrees with
the model's `Char.toLower`, making the embedding of the search branch
exact; the field side, SQLite `LOWER`, is ASCII-only for any content. -/
theorem searchDonors_substring_amended (db : Store) (term : List Char)
    (hne : term ≠ []) (hw : noWild term) (_hA : isAsciiStr term) :
    DonationTracker.searchDonors db term false = db.donors.filter (specMatches term)
    ∧ ∀ term2 : List Char, isAsciiStr term2 → lowerStr term2 = lowerStr term →
        DonationTracker.searchDonors db term2 false = DonationTracker.searchDonors db term false := by
  have hemp : term.isEmpty = false := by
    cases term with
    | nil => exact absurd rfl hne
    | cons c cs => rfl
  constructor
  · unfold DonationTracker.searchDonors
    rw [if_neg (by simp [hemp])]
    exact List.filter_congr (fun d _ => donorMatchesLike_eq_spec term hw d)
  · intro term2 _hA2 h2
    have hne2 : term2 ≠ [] := by
      intro he
      apply hne
      have h0 : lowerStr term = [] := by
        rw [← h2, he]
        rfl
      simpa [lowerStr, List.map_eq_nil_iff] using h0
    have hemp2 : term2.isEmpty = false := by
      cases term2 with
      | nil => exact absurd rfl hne2
      | cons c cs => rfl
    unfold DonationTracker.searchDonors
    rw [if_neg (by simp [hne2]), if_neg (by simp [hne])]
    unfold DonationTracker.donorMatchesLike
    rw [h2]

/-- Witness for the amended C4 theorem: the spec's own example — a donor
with city Springfield is found by the inner fragment `"ingfi"`, and the
upper-case variant `"INGFI"` gives the same result. -/
theorem searchDonors_substring_amended_witness :
    DonationTracker.searchDonors dbSpring "ingfi".data false
      = dbSpring.donors.filter (specMatches "ingfi".data)
    ∧ DonationTracker.searchDonors dbSpring "INGFI".data false
      = DonationTracker.searchDonors dbSpring "ingfi".data false := by
  have h := searchDonors_substring_amended dbSpring "ingfi".data (by decide) (by decide) (by decide)
  exact ⟨h.1, h.2 "INGFI".data (by decide) (by decide)⟩

/-! ### C3 -/

/-- `Nat.digitChar` of a value below ten is a decimal digit. -/
theorem digitChar_isDigit (m : Nat) (h : m < 10) : (Nat.digitChar m).isDigit = true := by
  interval_cases m <;> decide

/-- Decimal digit rendering only emits digit characters. -/
theorem toDigitsCore_digits (fuel : Nat) :
    ∀ (n : Nat) (acc : List Char), (∀ c ∈ acc, c.isDigit = true) →
      ∀ c ∈ Nat.toDigitsCore 10 fuel n acc, c.isDigit = true := by
  induction fuel with
  | zero =>
    intro n acc hacc c hc
    exact hacc c hc
  | succ fuel ih =>
    intro n acc hacc c hc
    have hcons : ∀ c ∈ Nat.digitChar (n % 10) :: acc, c.isDigit = true := by
      intro c hc
      rcases List.mem_cons.mp hc with he | hm
      · exact he ▸ digitChar_isDigit (n % 10) (Nat.mod_lt n (by omega))
      · exact hacc c hm
    simp only [Nat.toDigitsCore] at hc
    split at hc
    · exact hcons c hc
    · exact ih (n / 10) (Nat.digitChar (n % 10) :: acc) hcons c hc

/-- Every character of `Nat.repr` is a decimal digit. -/
theorem natRepr_digits (n : Nat) : ∀ c ∈ (Nat.repr n).data, c.isDigit = true := by
  intro c hc
  have he : (Nat.repr n).data = Nat.toDigitsCore 10 (n + 1) n [] := rfl
  rw [he] at hc
  exact toDigitsCore_digits (n + 1) n [] (by intro c hc; cases hc) c hc

/-- `formatCentsNat` ends in a point followed by exactly two digits, and
its whole part contains no point. -/
theorem formatCentsNat_shape (n : Nat) :
    ∃ pre a b, formatCentsNat n = pre ++ ['.', a, b]
      ∧ a.isDigit = true ∧ b.isDigit = true ∧ '.' ∉ pre := by
  refine ⟨(Nat.repr (n / 100)).data, Nat.digitChar (n % 100 / 10), Nat.digitChar (n % 10),
    rfl, digitChar_isDigit _ (by omega), digitChar_isDigit _ (Nat.mod_lt n (by omega)), ?_⟩
  intro hm
  have := natRepr_digits (n / 100) '.' hm
  exact absurd this (by decide)

/-- `formatCents` always renders with exactly two decimal places: it is a
point-free prefix followed by a point and exactly two digits. -/
theorem formatCents_shape (t : Int) :
    ∃ pre a b, formatCents t = pre ++ ['.', a, b]
      ∧ a.isDigit = true ∧ b.isDigit = true ∧ '.' ∉ pre := by
  unfold formatCents
  by_cases h : t < 0
  · rw [if_pos h]
    obtain ⟨pre, a, b, he, ha, hb, hd⟩ := formatCentsNat_shape (-t).toNat
    refine ⟨'-' :: pre, a, b, by rw [he]; rfl, ha, hb, ?_⟩
    intro hm
    rcases List.mem_cons.mp hm with h1 | h1
    · exact absurd h1 (by decide)
    · exact hd h1
  · rw [if_neg h]
    exact formatCentsNat_shape t.toNat

/-- With unique donor ids, the group of joined-and-filtered rows belonging
to a stored donor's id carries exactly that donor's prefix-matching
donations, in storage order. -/
theorem yearRows_group (db : Store) (year : Int) (d : Donor)
    (hnd : (db.donors.map (fun x => x.id)).Nodup) (hd : d ∈ db.donors) :
    ((yearRows db year).filter (fun p => p.1.id = d.id)).map (fun p => p.2)
      = matchingDonations db d.id year := by
  unfold yearRows joinOn matchingDonations
  generalize db.donors = L at hnd hd
  induction L with
  | nil => cases hd
  | cons a L ih =>
    rw [List.map_cons, List.nodup_cons] at hnd
    obtain ⟨ha, hnd'⟩ := hnd
    rw [List.flatMap_cons, List.filter_append, List.filter_append, List.map_append]
    rcases List.mem_cons.mp hd with he | hm
    · subst he
      have hB : ((L.flatMap (fun a =>
            List.map (fun dn => (a, dn)) (List.filter (fun dn => dn.donorId = a.id) db.donations))).filter
            (fun p => p.2.date.take 4 = yearChars year)).filter (fun p => p.1.id = d.id) = [] := by
        rw [List.filter_eq_nil_iff]
        intro p hp
        have hp1 : p ∈ L.flatMap (fun a =>
            List.map (fun dn => (a, dn)) (List.filter (fun dn => dn.donorId = a.id) db.donations)) :=
          List.mem_of_mem_filter hp
        obtain ⟨a1, ha1, hpa⟩ := List.mem_flatMap.mp hp1
        obtain ⟨dn, _, hpe⟩ := List.mem_map.mp hpa
        have hfst : p.1 = a1 := by rw [← hpe]
        have hid : a1.id ∈ L.map (fun x => x.id) := List.mem_map_of_mem (fun x => x.id) ha1
        simp only [hfst, decide_eq_true_eq]
        intro hcon
        rw [hcon] at hid
        exact ha hid
      rw [hB, List.map_nil, List.append_nil]
      rw [List.filter_map, List.filter_map, List.map_map]
      have hmapid : ∀ l : List Donation,
          List.map ((fun p => p.2) ∘ (fun dn => ((d : Donor), dn))) l = l := by
        intro l
        induction l with
        | nil => rfl
        | cons x xs ihx => simp [ihx]
      rw [hmapid]
      rw [List.filter_filter, List.filter_filter]
      apply List.filter_congr
      intro dn _
      simp only [Function.comp, Bool.decide_and]
      simp [Bool.and_comm]
    · have hA : ((List.map (fun dn => (a, dn)) (List.filter (fun dn => dn.donorId = a.id) db.donations)).filter
            (fun p => p.2.date.take 4 = yearChars year)).filter (fun p => p.1.id = d.id) = [] := by
        rw [List.filter_eq_nil_iff]
        intro p hp
        have hp1 : p ∈ List.map (fun dn => (a, dn)) (List.filter (fun dn => dn.donorId = a.id) db.donations) :=
          List.mem_of_mem_filter hp
        obtain ⟨dn, _, hpe⟩ := List.mem_map.mp hp1
        have hfst : p.1 = a := by rw [← hpe]
        have hid : d.id ∈ L.map (fun x => x.id) := List.mem_map_of_mem (fun x => x.id) hm
        simp only [hfst, decide_eq_true_eq]
        intro hcon
        rw [← hcon] at hid
        exact ha hid
      rw [hA, List.map_nil, List.nil_append]
      exact ih hnd' hm

/-- Membership in the grouped letter rows, for a stored donor with unique
ids: a row for the donor exists exactly when some donation of the donor
passes the string-prefix year filter, and its total is the sum of exactly
those donations. -/
theorem mem_letterRows (db : Store) (year : Int) (d : Donor) (t : Int)
    (hnd : (db.donors.map (fun x => x.id)).Nodup) (hd : d ∈ db.donors) :
    (d, t) ∈ letterRows db year
      ↔ (matchingDonations db d.id year ≠ []
          ∧ t = centsSum (matchingDonations db d.id year)) := by
  have hg := yearRows_group db year d hnd hd
  unfold letterRows
  rw [List.mem_filterMap]
  constructor
  · rintro ⟨a, ha, hFa⟩
    by_cases hga : (yearRows db year).filter (fun p => p.1.id = a.id) = []
    · rw [if_pos hga] at hFa
      cases hFa
    · rw [if_neg hga] at hFa
      have hpair := Option.some.inj hFa
      have had : a = d := congrArg Prod.fst hpair
      subst had
      have ht : centsSum (((yearRows db year).filter (fun p => p.1.id = a.id)).map (fun p => p.2)) = t :=
        congrArg Prod.snd hpair
      rw [hg] at ht
      constructor
      · intro hmuch
        apply hga
        have : ((yearRows db year).filter (fun p => p.1.id = a.id)).map (fun p => p.2) = [] := by
          rw [hg, hmuch]
        exact List.map_eq_nil_iff.mp this
      · exact ht.symm
  · rintro ⟨hne, ht⟩
    refine ⟨d, hd, ?_⟩
    have hgne : ¬ (yearRows db year).filter (fun p => p.1.id = d.id) = [] := by
      intro h0
      apply hne
      rw [← hg, h0]
      rfl
    rw [if_neg hgne, hg, ← ht]

/-- The grouped letter rows contain exactly one row carrying a stored
donor's id when the donor has a prefix-matching donation, and none
otherwise. -/
theorem letterRows_countP (db : Store) (year : Int) (d : Donor)
    (hnd : (db.donors.map (fun x => x.id)).Nodup) (hd : d ∈ db.donors) :
    (letterRows db year).countP (fun r => r.1.id = d.id)
      = if matchingDonations db d.id year = [] then 0 else 1 := by
  have hg := yearRows_group db year d hnd hd
  have hiff : ((yearRows db year).filter (fun p => p.1.id = d.id) = [])
      ↔ matchingDonations db d.id year = [] := by
    constructor
    · intro h0
      rw [← hg, h0]
      rfl
    · intro h0
      have : ((yearRows db year).filter (fun p => p.1.id = d.id)).map (fun p => p.2) = [] := by
        rw [hg, h0]
      exact List.map_eq_nil_iff.mp this
  have haux : ∀ L : List Donor, (L.map (fun x => x.id)).Nodup → d ∈ L →
      (L.filterMap (fun a =>
        if (yearRows db year).filter (fun p => p.1.id = a.id) = [] then none
        else some (a, centsSum (((yearRows db year).filter (fun p => p.1.id = a.id)).map (fun p => p.2))))).countP
        (fun r => r.1.id = d.id)
      = if (yearRows db year).filter (fun p => p.1.id = d.id) = [] then 0 else 1 := by
    intro L
    induction L with
    | nil =>
      intro _ hd1
      cases hd1
    | cons a L ih =>
      intro hnd1 hd1
      rw [List.map_cons, List.nodup_cons] at hnd1
      obtain ⟨ha, hnd'⟩ := hnd1
      have hFfst : ∀ (a1 : Donor) (r : Donor × Int),
          (if (yearRows db year).filter (fun p => p.1.id = a1.id) = [] then none
           else some (a1, centsSum (((yearRows db year).filter (fun p => p.1.id = a1.id)).map (fun p => p.2)))) = some r
          → r.1 = a1 := by
        intro a1 r hFa
        by_cases hga : (yearRows db year).filter (fun p => p.1.id = a1.id) = []
        · rw [if_pos hga] at hFa
          cases hFa
        · rw [if_neg hga] at hFa
          exact (congrArg Prod.fst (Option.some.inj hFa)).symm
      rcases List.mem_cons.mp hd1 with he | hm
      · subst he
        have htail : (L.filterMap (fun a =>
            if (yearRows db year).filter (fun p => p.1.id = a.id) = [] then none
            else some (a, centsSum (((yearRows db year).filter (fun p => p.1.id = a.id)).map (fun p => p.2))))).countP
              (fun r => r.1.id = d.id) = 0 := by
          rw [List.countP_eq_zero]
          intro r hr
          obtain ⟨a1, ha1, hFa⟩ := List.mem_filterMap.mp hr
          have hr1 : r.1 = a1 := hFfst a1 r hFa
          have hid : a1.id ∈ L.map (fun x => x.id) := List.mem_map_of_mem (fun x => x.id) ha1
          simp only [hr1, decide_eq_true_eq]
          intro hcon
          rw [hcon] at hid
          exact ha hid
        by_cases hga : (yearRows db year).filter (fun p => p.1.id = d.id) = []
        · rw [if_pos hga]
          rw [List.filterMap_cons_none (by rw [if_pos hga])]
          exact htail
        · rw [if_neg hga]
          rw [List.filterMap_cons_some (by rw [if_neg hga])]
          rw [List.countP_cons_of_pos _ _ (by simp)]
          rw [htail]
      · have haid : ¬ a.id = d.id := by
          intro hcon
          have hid : d.id ∈ L.map (fun x => x.id) := List.mem_map_of_mem (fun x => x.id) hm
          rw [← hcon] at hid
          exact ha hid
        by_cases hga : (yearRows db year).filter (fun p => p.1.id = a.id) = []
        · rw [List.filterMap_cons_none (by rw [if_pos hga])]
          exact ih hnd' hm
        · rw [List.filterMap_cons_some (by rw [if_neg hga])]
          rw [List.countP_cons_of_neg _ _ (by simpa using haid)]
          exact ih hnd' hm
  have hmain := haux db.donors hnd hd
  unfold letterRows
  rw [hmain]
  exact if_congr hiff rfl rfl

/-- C3: for a letter run over any store with unique donor ids and any year,
each stored donor gets a grouped letter row exactly when at least one of
its donations has date text starting with the year's four digits (a string
prefix check, not a date-range check); the row's total is the sum of
exactly those donations; there is exactly one such row (none for donors
with no matching donation); and the letter artifact written for the row
renders the total with exactly two decimal places. -/
theorem generateDonationLetters_aggregation (db : Store) (year : Int) (today : List Char)
    (d : Donor) (hnd : (db.donors.map (fun x => x.id)).Nodup) (hd : d ∈ db.donors) :
    ((∃ t, (d, t) ∈ letterRows db year) ↔ matchingDonations db d.id year ≠ [])
    ∧ (∀ t, (d, t) ∈ letterRows db year → t = centsSum (matchingDonations db d.id year))
    ∧ (letterRows db year).countP (fun r => r.1.id = d.id)
        = (if matchingDonations db d.id year = [] then 0 else 1)
    ∧ (∀ t, (d, t) ∈ letterRows db year →
        (fileName d.firstName d.lastName year,
          letterContent (orgNameOf db) (orgAddressOf db) today d year t) ∈ letterWrites today db year
        ∧ (∃ u v, letterContent (orgNameOf db) (orgAddressOf db) today d year t
            = u ++ formatCents t ++ v)
        ∧ (∃ pre a b, formatCents t = pre ++ ['.', a, b]
            ∧ a.isDigit = true ∧ b.isDigit = true ∧ '.' ∉ pre)) := by
  refine ⟨?_, ?_, letterRows_countP db year d hnd hd, ?_⟩
  · constructor
    · rintro ⟨t, ht⟩
      exact ((mem_letterRows db year d t hnd hd).mp ht).1
    · intro hne
      exact ⟨centsSum (matchingDonations db d.id year),
        (mem_letterRows db year d _ hnd hd).mpr ⟨hne, rfl⟩⟩
  · intro t ht
    exact ((mem_letterRows db year d t hnd hd).mp ht).2
  · intro t ht
    refine ⟨?_, ?_, formatCents_shape t⟩
    · exact List.mem_map_of_mem _ ht
    · refine ⟨orgNameOf db ++ "\n".data ++ orgAddressOf db ++ "\n\n".data ++ today ++ "\n\n".data ++
        d.firstName ++ " ".data ++ d.lastName ++ "\n".data ++ d.street ++ "\n".data ++
        d.city ++ ", ".data ++ d.state ++ " ".data ++ d.zip ++ "\n".data ++
        d.country ++ "\n\n".data ++ "Dear ".data ++ d.firstName ++ ",\n\n".data ++
        "Thank you for your generous total donation of $".data,
        " to ".data ++ orgNameOf db ++ " in ".data ++ yearChars year ++ ".\n".data ++
        "Your support makes a significant difference to our mission.\n\n".data ++
        "Sincerely,\n".data ++ orgNameOf db ++ "\n".data, ?_⟩
      simp only [letterContent, List.append_assoc]

/-- Witness for C3 at a concrete store: donor 1 of `db10` has exactly one
letter row for 2024. -/
theorem generateDonationLetters_aggregation_witness :
    (letterRows db10 2024).countP (fun r => r.1.id = (mkDonor 1 "bob".data "smith".data).id)
      = (if matchingDonations db10 (mkDonor 1 "bob".data "smith".data).id 2024 = [] then 0 else 1) :=
  (generateDonationLetters_aggregation db10 2024 "May 1, 2025".data
    (mkDonor 1 "bob".data "smith".data) (by decide) (by decide)).2.2.1

/-! ### C10 -/

/-- Looking a name up after one write: the written name now holds the new
content, all other names are unaffected. -/
theorem lookupFile_setFile (fs : List (List Char × List Char)) (n c m : List Char) :
    lookupFile (setFile fs n c) m = if m = n then some c else lookupFile fs m := by
  induction fs with
  | nil =>
    by_cases h : m = n
    · subst h
      simp [setFile, lookupFile, List.find?]
    · have h' : ¬ n = m := fun he => h he.symm
      simp [setFile, lookupFile, List.find?, h, h']
  | cons e fs ih =>
    show lookupFile (if e.1 = n then (n, c) :: fs else e :: setFile fs n c) m = _
    by_cases he : e.1 = n
    · rw [if_pos he]
      by_cases h : m = n
      · subst h
        simp [lookupFile, List.find?]
      · have h' : ¬ n = m := fun hx => h hx.symm
        have he' : ¬ e.1 = m := fun hx => h (hx.symm.trans he)
        rw [if_neg h]
        unfold lookupFile
        rw [List.find?_cons_of_neg _ (by simpa using h'), List.find?_cons_of_neg _ (by simpa using he')]
    · rw [if_neg he]
      by_cases hm : e.1 = m
      · have hmn : ¬ m = n := fun hc => he (hm.trans hc)
        rw [if_neg hmn]
        unfold lookupFile
        rw [List.find?_cons_of_pos _ (by simpa using hm), List.find?_cons_of_pos _ (by simpa using hm)]
      · unfold lookupFile
        rw [List.find?_cons_of_neg _ (by simpa using hm), List.find?_cons_of_neg _ (by simpa using hm)]
        exact ih

/-- A write can only add its own name to the directory's name set. -/
theorem setFile_keys (fs : List (List Char × List Char)) (n c m : List Char)
    (h : m ∈ (setFile fs n c).map (fun e => e.1)) :
    m ∈ fs.map (fun e => e.1) ∨ m = n := by
  induction fs with
  | nil =>
    simp [setFile] at h
    exact Or.inr h
  | cons e fs ih =>
    rw [show setFile (e :: fs) n c = if e.1 = n then (n, c) :: fs else e :: setFile fs n c from rfl] at h
    by_cases he : e.1 = n
    · rw [if_pos he] at h
      rcases List.mem_cons.mp h with h1 | h1
      · exact Or.inr h1
      · exact Or.inl (List.mem_cons_of_mem _ h1)
    · rw [if_neg he] at h
      rcases List.mem_cons.mp h with h1 | h1
      · exact Or.inl (h1 ▸ List.mem_cons_self _ _)
      · rcases ih h1 with h2 | h2
        · exact Or.inl (List.mem_cons_of_mem _ h2)
        · exact Or.inr h2

/-- A write keeps the directory's names distinct. -/
theorem setFile_keys_nodup (fs : List (List Char × List Char)) (n c : List Char)
    (h : (fs.map (fun e => e.1)).Nodup) :
    ((setFile fs n c).map (fun e => e.1)).Nodup := by
  induction fs with
  | nil => simp [setFile]
  | cons e fs ih =>
    rw [List.map_cons, List.nodup_cons] at h
    obtain ⟨he1, hfs⟩ := h
    show (((if e.1 = n then (n, c) :: fs else e :: setFile fs n c)).map (fun e => e.1)).Nodup
    by_cases he : e.1 = n
    · rw [if_pos he]
      rw [List.map_cons, List.nodup_cons]
      exact ⟨fun hm => he1 (he ▸ hm), hfs⟩
    · rw [if_neg he]
      rw [List.map_cons, List.nodup_cons]
      refine ⟨?_, ih hfs⟩
      intro hm
      rcases setFile_keys fs n c e.1 hm with h1 | h1
      · exact he1 h1
      · exact he h1

/-- Performing a sequence of writes keeps the directory's names distinct. -/
theorem runWrites_keys_nodup (ws : List (List Char × List Char)) :
    ((runWrites ws).map (fun e => e.1)).Nodup := by
  unfold runWrites
  have haux : ∀ fs : List (List Char × List Char), (fs.map (fun e => e.1)).Nodup →
      ((ws.foldl (fun fs w => setFile fs w.1 w.2) fs).map (fun e => e.1)).Nodup := by
    induction ws with
    | nil => intro fs h; exact h
    | cons w ws ih =>
      intro fs h
      exact ih (setFile fs w.1 w.2) (setFile_keys_nodup fs w.1 w.2 h)
  exact haux [] (by simp)

/-- After a run of writes, each name holds the content of the last write
that targeted it (later writes overwrite earlier ones). -/
theorem lookupFile_foldl (ws : List (List Char × List Char)) :
    ∀ (fs : List (List Char × List Char)) (m : List Char),
      lookupFile (ws.foldl (fun fs w => setFile fs w.1 w.2) fs) m
        = match lastWrite m ws with
          | some w => some w.2
          | none => lookupFile fs m := by
  induction ws with
  | nil =>
    intro fs m
    rfl
  | cons w ws ih =>
    intro fs m
    rw [List.foldl_cons, ih (setFile fs w.1 w.2) m]
    have hlast : lastWrite m (w :: ws)
        = match lastWrite m ws with
          | some v => some v
          | none => if w.1 = m then some w else none := by
      unfold lastWrite
      rw [List.reverse_cons, List.find?_append]
      cases hl : List.find? (fun e => e.1 = m) ws.reverse with
      | some v => rfl
      | none =>
        show Option.or none (List.find? (fun e => e.1 = m) [w])
            = if w.1 = m then some w else none
        by_cases hw : w.1 = m
        · rw [List.find?_cons_of_pos _ (by simpa using hw), if_pos hw]
          rfl
        · rw [List.find?_cons_of_neg _ (by simpa using hw), if_neg hw]
          rfl
    rw [hlast]
    cases hl : lastWrite m ws with
    | some v => rfl
    | none =>
      rw [lookupFile_setFile]
      by_cases hw : w.1 = m
      · rw [if_pos hw, if_pos hw.symm]
      · rw [if_neg hw, if_neg (fun hx => hw hx.symm)]

/-- A write that occurs in the sequence guarantees a last write under its
name. -/
theorem lastWrite_isSome (ws : List (List Char × List Char)) (w : List Char × List Char)
    (hm : w ∈ ws) : (lastWrite w.1 ws).isSome = true := by
  unfold lastWrite
  rw [List.find?_isSome]
  exact ⟨w, List.mem_reverse.mpr hm, by simp⟩

/-- C10: the letter file name is built from first name, last name and year
only.  When two distinct donors with the same first and last name both earn
a letter in the same run, both letters are written under one file name;
after the run the directory holds distinct names, and that shared name
holds the content of the later of the two writes (the later-written
donor's letter overwrites the earlier one). -/
theorem letter_fileName_collision (db : Store) (year : Int) (today : List Char)
    (d1 d2 : Donor) (t1 t2 : Int)
    (h1 : (d1, t1) ∈ letterRows db year) (h2 : (d2, t2) ∈ letterRows db year)
    (_hne : d1 ≠ d2) (hf : d1.firstName = d2.firstName) (hl : d1.lastName = d2.lastName) :
    fileName d2.firstName d2.lastName year = fileName d1.firstName d1.lastName year
    ∧ (fileName d1.firstName d1.lastName year,
        letterContent (orgNameOf db) (orgAddressOf db) today d1 year t1) ∈ letterWrites today db year
    ∧ (fileName d1.firstName d1.lastName year,
        letterContent (orgNameOf db) (orgAddressOf db) today d2 year t2) ∈ letterWrites today db year
    ∧ ((runWrites (letterWrites today db year)).map (fun e => e.1)).Nodup
    ∧ (∃ w, lastWrite (fileName d1.firstName d1.lastName year) (letterWrites today db year) = some w
        ∧ lookupFile (runWrites (letterWrites today db year)) (fileName d1.firstName d1.lastName year)
            = some w.2) := by
  have hfn : fileName d2.firstName d2.lastName year = fileName d1.firstName d1.lastName year := by
    rw [hf, hl]
  have hw1 : (fileName d1.firstName d1.lastName year,
      letterContent (orgNameOf db) (orgAddressOf db) today d1 year t1) ∈ letterWrites today db year :=
    List.mem_map_of_mem _ h1
  have hw2 : (fileName d1.firstName d1.lastName year,
      letterContent (orgNameOf db) (orgAddressOf db) today d2 year t2) ∈ letterWrites today db year := by
    have := List.mem_map_of_mem
      (fun r : Donor × Int => (fileName r.1.firstName r.1.lastName year,
        letterContent (orgNameOf db) (orgAddressOf db) today r.1 year r.2)) h2
    rw [← hfn]
    exact this
  refine ⟨hfn, hw1, hw2, runWrites_keys_nodup _, ?_⟩
  have hsome := lastWrite_isSome (letterWrites today db year) _ hw2
  obtain ⟨w, hw⟩ := Option.isSome_iff_exists.mp hsome
  refine ⟨w, hw, ?_⟩
  have hfold := lookupFile_foldl (letterWrites today db year) []
    (fileName d1.firstName d1.lastName year)
  unfold runWrites
  rw [hfold, hw]

/-- Witness for C10: in `db10` two distinct donors both named bob smith
each earn a 2024 letter; the later donor's letter is written under the
shared file name. -/
theorem letter_fileName_collision_witness :
    (fileName "bob".data "smith".data 2024,
      letterContent (orgNameOf db10) (orgAddressOf db10) "May 1, 2025".data
        (mkDonor 2 "bob".data "smith".data) 2024 2500)
      ∈ letterWrites "May 1, 2025".data db10 2024 :=
  (letter_fileName_collision db10 2024 "May 1, 2025".data
    (mkDonor 1 "bob".data "smith".data) (mkDonor 2 "bob".data "smith".data) 1000 2500
    (by decide) (by decide) (by decide) rfl rfl).2.2.1
